import Mathlib

/-!
Verification of the API request/resilience layer of the `natureswaysoil/video`
repository (Amazon PPC automation scripts).

The Python sources embedded here (shallowly) are:
  * `amazon-ppc-fixed/amazon_ads_api_v3.py` — `RateLimiter`, `AmazonAdsAPIv3._request`,
    `list_campaigns`, `_wait_for_report`;
  * `amazon_ppc_optimizer_complete/amazon_ppc_optimizer.py` — `Auth.is_expired`,
    `AmazonAdsAPI._refresh_auth_if_needed`, `RateLimiter.wait_if_needed`,
    `wait_for_report`, `download_report`, `get_campaigns`, and the feature modules
    (`BidOptimizer`, `DaypartingManager`, `CampaignManager`, `KeywordDiscovery`,
    `NegativeKeywordManager`);
  * `amazon_ppc_optimizer_complete/amazon_ppc_optimizer_v2.py` —
    `TokenBucketRateLimiter.acquire`, `CacheManager`, `AmazonAdsAPI._request`.

Real time (`time.time()`, `time.sleep`) is modelled by an explicit simulated
clock: the current instant is passed to each operation as a rational number,
and sleeping for `w` seconds makes the next reading of the clock `now + w`.

The file is organised as: all definitions first, then all theorems.
-/

namespace PPC

/-! ## Definitions: fixed-interval rate limiter

`RateLimiter.wait_if_needed` from `amazon_ppc_optimizer.py` (lines 179-196),
identical in structure to `amazon_ads_api_v3.py` (lines 72-81):

    current_time = time.time()
    time_since_last = current_time - self.last_request_time
    if time_since_last < self.interval:
        sleep_time = self.interval - time_since_last
        time.sleep(sleep_time)
    self.last_request_time = time.time()

The state is the `last_request_time` field.  The call is granted when
`wait_if_needed` returns, i.e. at instant `now + wait`, and that same instant
is what `time.time()` yields for the final assignment, so the new
`last_request_time` is the grant instant. -/

structure RateLimiterState where
  lastRequestTime : ℚ
  deriving Repr, DecidableEq

namespace RateLimiterState

/-- One call of `wait_if_needed` at clock instant `now`, for a limiter with
interval `interval = 1 / max_per_second`.  Returns the slept duration and the
new state. -/
def waitIfNeeded (interval : ℚ) (s : RateLimiterState) (now : ℚ) :
    ℚ × RateLimiterState :=
  let timeSinceLast := now - s.lastRequestTime
  let sleepTime := if timeSinceLast < interval then interval - timeSinceLast else 0
  (sleepTime, ⟨now + sleepTime⟩)

/-- Run a sequence of `wait_if_needed` calls at the given clock instants,
collecting the grant instants. -/
def grants (interval : ℚ) : RateLimiterState → List ℚ → List ℚ
  | _, [] => []
  | s, now :: rest =>
      let r := waitIfNeeded interval s now
      (now + r.1) :: grants interval r.2 rest

/-- Consecutive elements of a list of instants are at least `d` apart. -/
def Spaced (d : ℚ) : List ℚ → Prop
  | [] => True
  | [_] => True
  | a :: b :: rest => a + d ≤ b ∧ Spaced d (b :: rest)

end RateLimiterState

/-! ## Definitions: token-bucket rate limiter

`TokenBucketRateLimiter` from `amazon_ppc_optimizer_v2.py` (lines 208-261):

    def __init__(self, tokens_per_second=0.2, bucket_size=5):
        self.tokens = bucket_size
        self.last_update = time.time()
    def acquire(self, tokens=1):
        current_time = time.time()
        elapsed = current_time - self.last_update
        self.tokens = min(self.bucket_size, self.tokens + elapsed * self.tokens_per_second)
        self.last_update = current_time
        if self.tokens < tokens:
            wait_time = (tokens - self.tokens) / self.tokens_per_second
            time.sleep(wait_time)
            self.tokens = 0
            self.last_update = time.time()
            return wait_time
        else:
            self.tokens -= tokens
            return 0.0
-/

structure TokenBucketConfig where
  tokensPerSecond : ℚ
  bucketSize : ℚ
  deriving Repr, DecidableEq

structure TokenBucketState where
  tokens : ℚ
  lastUpdate : ℚ
  deriving Repr, DecidableEq

namespace TokenBucketState

/-- The constructor: a full bucket, last update stamped with the current time. -/
def init (cfg : TokenBucketConfig) (now : ℚ) : TokenBucketState :=
  ⟨cfg.bucketSize, now⟩

/-- `TokenBucketRateLimiter.acquire(tokens)` called at clock instant `now`.
Returns the waited duration and the new state.  After `time.sleep(wait_time)`
the reading of `time.time()` is `now + wait_time`. -/
def acquire (cfg : TokenBucketConfig) (s : TokenBucketState) (req now : ℚ) :
    ℚ × TokenBucketState :=
  let elapsed := now - s.lastUpdate
  let refilled := min cfg.bucketSize (s.tokens + elapsed * cfg.tokensPerSecond)
  if refilled < req then
    let waitTime := (req - refilled) / cfg.tokensPerSecond
    (waitTime, ⟨0, now + waitTime⟩)
  else
    (0, ⟨refilled - req, now⟩)

/-- The token-bucket reference algorithm exactly as the spec words it (§4.2):
refill `tokens = min(C, tokens + elapsed*r)`; if `tokens >= requested` debit
and return immediately with no wait; otherwise `wait = (requested - tokens) / r`,
suspend, reset `tokens = 0` and set the last-refill timestamp to the current
(post-suspension) time, returning the waited duration. -/
def acquireSpec (cfg : TokenBucketConfig) (s : TokenBucketState) (req now : ℚ) :
    ℚ × TokenBucketState :=
  let refilled := min cfg.bucketSize (s.tokens + (now - s.lastUpdate) * cfg.tokensPerSecond)
  if req ≤ refilled then
    (0, ⟨refilled - req, now⟩)
  else
    ((req - refilled) / cfg.tokensPerSecond,
     ⟨0, now + (req - refilled) / cfg.tokensPerSecond⟩)

/-- Run a sequence of acquire operations; each element is a pair
(requested tokens, clock instant of the call). -/
def runAcquires (cfg : TokenBucketConfig) : TokenBucketState → List (ℚ × ℚ) → TokenBucketState
  | s, [] => s
  | s, (req, now) :: rest => runAcquires cfg (acquire cfg s req now).2 rest

/-- A sequence of acquire calls is admissible when every request is positive
and every call is issued no earlier than the state's `last_update` (the
single-threaded client cannot call `acquire` before the previous call
returned, and `last_update` always equals the previous return instant). -/
def TBAdmissible (cfg : TokenBucketConfig) : TokenBucketState → List (ℚ × ℚ) → Prop
  | _, [] => True
  | s, (req, now) :: rest =>
      0 < req ∧ s.lastUpdate ≤ now ∧ TBAdmissible cfg (acquire cfg s req now).2 rest

/-- The token-count invariant: never negative, never above capacity. -/
def Inv (cfg : TokenBucketConfig) (s : TokenBucketState) : Prop :=
  0 ≤ s.tokens ∧ s.tokens ≤ cfg.bucketSize

end TokenBucketState

/-! ## Definitions: token authentication

From `amazon_ppc_optimizer.py`:

    @dataclass
    class Auth:
        access_token: str
        token_type: str
        expires_at: float
        def is_expired(self) -> bool:
            return time.time() > self.expires_at - 60

    def _authenticate(self) -> Auth:
        ...
        auth = Auth(access_token=data["access_token"],
                    token_type=data.get("token_type", "Bearer"),
                    expires_at=time.time() + int(data.get("expires_in", 3600)))
        return auth

    def _refresh_auth_if_needed(self):
        if self.auth.is_expired():
            self.auth = self._authenticate()

The token endpoint's response is a parameter of the embedding: a refresh
performed at instant `now` installs a token with `expires_at = now + expiresIn`
where `expiresIn` is the lifetime granted by the server. -/

structure Auth where
  accessToken : String
  tokenType : String
  expiresAt : ℚ
  deriving Repr, DecidableEq

namespace Auth

/-- The 60-second grace period before expiry. -/
def gracePeriod : ℚ := 60

/-- `Auth.is_expired` at clock instant `now`. -/
def isExpired (a : Auth) (now : ℚ) : Bool :=
  decide (a.expiresAt - gracePeriod < now)

/-- `_authenticate` succeeding at instant `now` with a server-granted lifetime
of `expiresIn` seconds. -/
def authenticate (tok ttype : String) (expiresIn now : ℚ) : Auth :=
  ⟨tok, ttype, now + expiresIn⟩

/-- `_refresh_auth_if_needed` at instant `now`: refresh exactly when the
current token is expired.  Returns the token in place for the request and the
number of refreshes performed. -/
def refreshAuthIfNeeded (a : Auth) (now : ℚ) (freshTok freshType : String)
    (expiresIn : ℚ) : Auth × Nat :=
  if a.isExpired now then (authenticate freshTok freshType expiresIn now, 1)
  else (a, 0)

end Auth

/-! ## Definitions: resilient request loop

`AmazonAdsAPI._request` from `amazon_ppc_optimizer_v2.py` (lines 882-972),
with `MAX_RETRIES = 5`, `BASE_RETRY_DELAY = 5`, `MAX_RETRY_DELAY = 120`
(the fixed client's `_request`, lines 145-177 of `amazon_ads_api_v3.py`, has
the same loop shape with `max_retries = 3` and no delay cap; the retry budget
and delay bounds are parameters here):

    for attempt in range(MAX_RETRIES):
        response = requests.request(...)
        if response.status_code in [429, 425]:
            retry_after = int(response.headers.get('Retry-After', 0))
            if retry_after == 0:
                retry_after = min(BASE_RETRY_DELAY * (2 ** attempt), MAX_RETRY_DELAY)
            time.sleep(retry_after)
            continue
        response.raise_for_status()          # raises HTTPError on 4xx/5xx
        return response
      except requests.exceptions.HTTPError:
        if attempt == MAX_RETRIES - 1:
            raise                            # HTTPError carries status and body
        time.sleep(min(BASE_RETRY_DELAY * (2 ** attempt), MAX_RETRY_DELAY))
    raise Exception("Max retries exceeded")  # carries no status/body

The transport is scripted: `transport i` is the response the server returns to
the `i`-th issued request. -/

/-- One scripted transport response: HTTP status, body text, and the value of
the `Retry-After` header (`0` models an absent header, as does
`headers.get('Retry-After', 0)`). -/
structure TransportResp where
  status : ℕ
  body : String
  retryAfter : ℕ
  deriving Repr, DecidableEq

/-- Statuses 429 (Too Many Requests) and 425 (Too Early). -/
def isRateLimited (st : ℕ) : Bool :=
  st = 429 || st = 425

/-- Statuses for which `response.raise_for_status()` raises `HTTPError`. -/
def isHttpError (st : ℕ) : Bool :=
  400 ≤ st && st < 600

/-- An attempt that does not return: rate-limited or error-class. -/
def isFailure (r : TransportResp) : Bool :=
  isRateLimited r.status || isHttpError r.status

/-- The exponential backoff `min(base * 2^attempt, maxDelay)`. -/
def backoffDelay (base maxDelay attempt : ℕ) : ℕ :=
  min (base * 2 ^ attempt) maxDelay

/-- How a `_request` call ends. -/
inductive ReqOutcome where
  /-- `return response` (statuses outside the `raise_for_status` range). -/
  | success (status : ℕ) (body : String)
  /-- the final attempt's `HTTPError` is re-raised: it carries the last
  observed status and body. -/
  | httpError (status : ℕ) (body : String)
  /-- the loop exhausted all attempts on rate-limit responses and the bare
  `raise Exception("Max retries exceeded")` fires: no status, no body. -/
  | maxRetriesExceeded
  deriving Repr, DecidableEq

/-- Does the outcome carry the last observed status and body (the spec's
`ApiError{status, body}`)? -/
def ReqOutcome.carriesStatusBody : ReqOutcome → Bool
  | .httpError _ _ => true
  | _ => false

/-- The retry loop with `fuel` attempts remaining, the next one numbered
`attempt`.  Returns the outcome, the number of requests issued, and the list
of slept backoff durations in order. -/
def requestGo (transport : ℕ → TransportResp) (base maxDelay : ℕ) :
    ℕ → ℕ → ReqOutcome × ℕ × List ℕ
  | 0, _ => (.maxRetriesExceeded, 0, [])
  | fuel + 1, attempt =>
      let r := transport attempt
      if isRateLimited r.status then
        let w := if r.retryAfter = 0 then backoffDelay base maxDelay attempt else r.retryAfter
        let rest := requestGo transport base maxDelay fuel (attempt + 1)
        (rest.1, rest.2.1 + 1, w :: rest.2.2)
      else if isHttpError r.status then
        match fuel with
        | 0 => (.httpError r.status r.body, 1, [])
        | fuel' + 1 =>
            let w := backoffDelay base maxDelay attempt
            let rest := requestGo transport base maxDelay (fuel' + 1) (attempt + 1)
            (rest.1, rest.2.1 + 1, w :: rest.2.2)
      else
        (.success r.status r.body, 1, [])

/-- `_request` against a scripted transport with a retry budget of
`maxRetries` attempts. -/
def request (transport : ℕ → TransportResp) (maxRetries base maxDelay : ℕ) :
    ReqOutcome × ℕ × List ℕ :=
  requestGo transport base maxDelay maxRetries 0

/-- A scripted transport built from a finite list; past the end of the script
the server answers 200 with an empty body. -/
def scriptTransport (script : List TransportResp) : ℕ → TransportResp :=
  fun i => script.getD i ⟨200, "", 0⟩

/-! ## Definitions: response cache

`CacheManager` from `amazon_ppc_optimizer_v2.py` (lines 280-374):

    def _get_cache_key(self, prefix, *args, **kwargs):
        data = f"{prefix}:{args}:{sorted(kwargs.items())}"
        return hashlib.md5(data.encode()).hexdigest()
    def get(self, prefix, *args, **kwargs):
        cache_key = self._get_cache_key(prefix, *args, **kwargs)
        cache_path = self._get_cache_path(cache_key)
        if not cache_path.exists():
            return None
        try:
            file_time = datetime.fromtimestamp(cache_path.stat().st_mtime)
            if datetime.now() - file_time > self.cache_lifetime:
                cache_path.unlink()
                return None
            with open(cache_path, 'rb') as f:
                data = pickle.load(f)
            return data
        except Exception:
            return None
    def set(self, prefix, data, *args, **kwargs):
        try:
            with open(cache_path, 'wb') as f:
                pickle.dump(data, f)
        except Exception:
            pass

The cache directory is modelled as an association list from logical keys to
entries; MD5 hashing of the key string is dropped (it is injective up to hash
collision), keeping the underlying triple (prefix, args, sorted kwargs).  A
file whose unpickling raises is a `corrupt` entry.  Payloads are opaque
serialized strings.  `get` is a total function into `Option`: every failure
path inside the Python `get` is caught by its `except Exception` handler and
becomes a `None` return, so the embedding has no error channel. -/

/-- Code-point comparison of characters, as Python compares strings. -/
def charLtB (c d : Char) : Bool := c.toNat < d.toNat

/-- Lexicographic comparison of character lists. -/
def strLtAux : List Char → List Char → Bool
  | [], [] => false
  | [], _ :: _ => true
  | _ :: _, [] => false
  | c :: cs, d :: ds =>
      if charLtB c d then true
      else if charLtB d c then false
      else strLtAux cs ds

/-- Python's `<` on strings (code-point lexicographic). -/
def strLtB (a b : String) : Bool := strLtAux a.data b.data

/-- Python's `<=` on `(key, value)` tuples, as used by `sorted(kwargs.items())`. -/
def pairLeB (p q : String × String) : Bool :=
  strLtB p.1 q.1 || (p.1 = q.1 && (strLtB p.2 q.2 || p.2 = q.2))

/-- Sorted insertion of one pair. -/
def insertPair (p : String × String) : List (String × String) → List (String × String)
  | [] => [p]
  | q :: rest => if pairLeB p q then p :: q :: rest else q :: insertPair p rest

/-- `sorted(kwargs.items())`. -/
def sortPairs : List (String × String) → List (String × String)
  | [] => []
  | p :: rest => insertPair p (sortPairs rest)

/-- The logical cache key `f"{prefix}:{args}:{sorted(kwargs.items())}"`. -/
structure CacheKey where
  pfx : String
  args : List String
  kwargs : List (String × String)
  deriving Repr, DecidableEq

/-- `_get_cache_key`. -/
def cacheKey (pfx : String) (args : List String) (kwargs : List (String × String)) : CacheKey :=
  ⟨pfx, args, sortPairs kwargs⟩

/-- What `pickle.load` on the cache file yields: the stored payload, or an
exception (a corrupt / unreadable entry). -/
inductive CacheContent where
  | good (payload : String)
  | corrupt
  deriving Repr, DecidableEq

/-- One cache file: its modification time and its content. -/
structure CacheEntry where
  mtime : ℚ
  content : CacheContent
  deriving Repr, DecidableEq

/-- The cache directory. -/
def CacheStore := List (CacheKey × CacheEntry)

/-- Find the cache file for a key. -/
def cacheLookup (store : CacheStore) (k : CacheKey) : Option CacheEntry :=
  (List.find? (fun e => decide (e.1 = k)) store).map (fun e => e.2)

/-- `cache_path.unlink()`: delete the file for a key. -/
def cacheErase (store : CacheStore) (k : CacheKey) : CacheStore :=
  List.filter (fun e => !decide (e.1 = k)) store

/-- `CacheManager.set` at instant `now` (the new file's mtime is `now`). -/
def cacheSet (store : CacheStore) (pfx : String) (args : List String)
    (kwargs : List (String × String)) (payload : String) (now : ℚ) : CacheStore :=
  (cacheKey pfx args kwargs, ⟨now, .good payload⟩) :: cacheErase store (cacheKey pfx args kwargs)

/-- `CacheManager.get` at instant `now` with the configured `cache_lifetime`:
returns the payload (or `None`) and the cache directory afterwards. -/
def cacheGet (lifetime : ℚ) (store : CacheStore) (pfx : String) (args : List String)
    (kwargs : List (String × String)) (now : ℚ) : Option String × CacheStore :=
  let k := cacheKey pfx args kwargs
  match cacheLookup store k with
  | none => (none, store)
  | some e =>
      if lifetime < now - e.mtime then (none, cacheErase store k)
      else
        match e.content with
        | .good p => (some p, store)
        | .corrupt => (none, store)

/-! ## Definitions: report wait loop

`AmazonAdsAPI.wait_for_report` from `amazon_ppc_optimizer.py` (lines 712-729)
(`amazon_ppc_optimizer_v2.py` lines 1445-1475 is the same loop with a
configurable poll interval):

    start_time = time.time()
    while time.time() - start_time < timeout:
        status_data = self.get_report_status(report_id)
        status = status_data.get('status')
        if status == 'SUCCESS':
            return status_data.get('location')
        elif status in ['FAILURE', 'CANCELLED']:
            logger.error(f"Report {report_id} failed: {status}")
            return None
        time.sleep(5)
    logger.error(f"Report {report_id} timeout")
    return None

Polls are scripted; the poll itself is instantaneous and each `time.sleep`
advances the simulated clock by `interval`.  A script that runs out keeps
answering `noStatus` (`get_report_status` returns `{}` when its request
fails, so `status` is `None` and the loop continues). -/

/-- What one `get_report_status` poll observes. -/
inductive PollStatus where
  | pending
  | running
  | failure
  | cancelled
  | success (loc : String)
  /-- `{}` from an absorbed request error, or an unrecognized status string. -/
  | noStatus
  deriving Repr, DecidableEq

/-- The statuses on which the loop stops. -/
def isTerminalPoll : PollStatus → Bool
  | .success _ => true
  | .failure => true
  | .cancelled => true
  | _ => false

/-- How `wait_for_report` ends; the three endings are logged distinctly. -/
inductive WaitOutcome where
  /-- `return status_data.get('location')` on SUCCESS. -/
  | gotLocation (loc : String)
  /-- `return None` after logging `Report failed: {status}`. -/
  | reportFailed (st : PollStatus)
  /-- `return None` after logging `Report timeout`. -/
  | timedOut
  deriving Repr, DecidableEq

/-- The Python return value of the ending. -/
def WaitOutcome.toReturn : WaitOutcome → Option String
  | .gotLocation l => some l
  | _ => none

/-- The polling loop; `fuel` bounds the number of iterations (real code
terminates because `elapsed` grows by `interval > 0` every iteration and the
loop requires `elapsed < timeout`). -/
def waitGo (interval timeout : ℕ) : ℕ → List PollStatus → ℕ → WaitOutcome
  | 0, _, _ => .timedOut
  | fuel + 1, script, elapsed =>
      if elapsed < timeout then
        match script with
        | [] => waitGo interval timeout fuel [] (elapsed + interval)
        | .success loc :: _ => .gotLocation loc
        | .failure :: _ => .reportFailed .failure
        | .cancelled :: _ => .reportFailed .cancelled
        | _ :: rest => waitGo interval timeout fuel rest (elapsed + interval)
      else .timedOut

/-- `wait_for_report` against a scripted status sequence.  `timeout + 1`
iterations always suffice when `interval ≥ 1`: each iteration needs
`elapsed < timeout` and raises `elapsed` by `interval`. -/
def waitForReport (script : List PollStatus) (interval timeout : ℕ) : WaitOutcome :=
  waitGo interval timeout (timeout + 1) script 0

/-! ## Definitions: report download and parse

`AmazonAdsAPI.download_report`, identical in `amazon_ppc_optimizer.py`
(lines 682-710) and `amazon_ppc_optimizer_v2.py` (lines 1403-1442):

    content = response.content
    try:
        with zipfile.ZipFile(io.BytesIO(content)) as z:
            names = z.namelist()
            with z.open(names[0]) as f:
                text = io.TextIOWrapper(f, encoding='utf-8', newline='')
                return list(csv.DictReader(text))
    except zipfile.BadZipFile:
        try:
            with gzip.GzipFile(fileobj=io.BytesIO(content)) as gz:
                text = io.TextIOWrapper(gz, encoding='utf-8', newline='')
                return list(csv.DictReader(text))
        except Exception:
            text = io.StringIO(content.decode('utf-8'))
            return list(csv.DictReader(text))
    # any other exception (outer try): return []

The payload is modelled at the container level (the binary ZIP/gzip framing
itself is opaque): a payload is either a ZIP archive of member texts, a gzip
stream of one text, or plain text.  Reading a non-ZIP payload as ZIP raises
`BadZipFile`; reading plain text as gzip raises; `names[0]` of an empty
archive raises `IndexError`, which is not `BadZipFile` and is absorbed by the
outer handler into `[]`.  `csv.DictReader` is modelled for unquoted CSV:
first non-empty line is the header, each further non-empty line is zipped
with the header fields. -/

/-- Structural char-list split (Python `str.split(sep)` for a 1-char `sep`). -/
def splitOnChar (sep : Char) : List Char → List (List Char)
  | [] => [[]]
  | c :: rest =>
      match splitOnChar sep rest with
      | [] => [[c]]
      | grp :: gs => if c == sep then [] :: grp :: gs else (c :: grp) :: gs

/-- Split a string on a separator character. -/
def splitStr (sep : Char) (s : String) : List String :=
  (splitOnChar sep s.data).map String.mk

/-- `list(csv.DictReader(text))` for unquoted CSV: the rows as
(field, value) dictionaries. -/
def parseCSV (text : String) : List (List (String × String)) :=
  match (splitStr (Char.ofNat 10) text).filter (fun l => l ≠ "") with
  | [] => []
  | header :: rows =>
      let fields := splitStr (Char.ofNat 44) header
      rows.map (fun r => fields.zip (splitStr (Char.ofNat 44) r))

/-- The report payload at container level. -/
inductive ReportPayload where
  | zipArchive (members : List String)
  | gzipStream (text : String)
  | plainText (text : String)
  deriving Repr, DecidableEq

/-- Outcome of `zipfile.ZipFile` + `z.open(names[0])`. -/
inductive ZipRead where
  | ok (text : String)
  /-- `BadZipFile`: the content is not a ZIP archive. -/
  | badZip
  /-- `IndexError` from `names[0]` on an empty archive. -/
  | indexError
  deriving Repr, DecidableEq

/-- First stage: try to read the payload as a ZIP archive. -/
def readAsZip : ReportPayload → ZipRead
  | .zipArchive [] => .indexError
  | .zipArchive (f :: _) => .ok f
  | _ => .badZip

/-- Second stage: try to read the payload as a gzip stream. -/
def readAsGzip : ReportPayload → Option String
  | .gzipStream t => some t
  | _ => none

/-- `download_report`: attempt ZIP, then gzip, then plain text; parse the
recovered text as CSV; any unhandled error yields `[]` via the outer
handler. -/
def download_report (p : ReportPayload) : List (List (String × String)) :=
  match readAsZip p with
  | .ok f => parseCSV f
  | .indexError => []
  | .badZip =>
      match readAsGzip p with
      | some t => parseCSV t
      | none =>
          match p with
          | .plainText t => parseCSV t
          | _ => []

/-! ## Definitions: read accessors and exception absorption

`AmazonAdsAPI.get_campaigns` from `amazon_ppc_optimizer.py` (lines 408-447)
runs `self._request(...)` (which calls `_headers` → `_refresh_auth_if_needed`
→ `_authenticate`) and parses the JSON response inside

    try:
        ...
        return campaigns
    except Exception as e:
        logger.error(f"Failed to get campaigns: {e}")
        return []

`_authenticate` ends in `sys.exit(1)` on a failed token exchange.
`sys.exit` raises `SystemExit`, which derives from `BaseException` but not
from `Exception`, so `except Exception` does not catch it.  The fixed
client's `list_campaigns` (`amazon_ads_api_v3.py` lines 179-213) has the same
shape, but its `_refresh_access_token` re-raises the original
`requests` exception, which is `Exception`-class.

The environment scripts which steps fail; errors are tagged with their
Python class. -/

/-- A raised Python error, classified by whether `except Exception`
catches it. -/
inductive PyErr where
  /-- an `Exception`-class error (HTTPError, network error, JSON error, ...). -/
  | exc (msg : String)
  /-- `SystemExit(code)` from `sys.exit(code)`: a `BaseException`, not caught
  by `except Exception`. -/
  | sysExit (code : ℕ)
  deriving Repr, DecidableEq

/-- Scripted outcomes of the steps under a read accessor. -/
structure ReadEnv where
  /-- `self.auth.is_expired()` at the moment of the request. -/
  tokenExpired : Bool
  /-- whether the `POST` to the token endpoint succeeds. -/
  authExchangeOk : Bool
  /-- the transport outcome: a response body, or the `Exception`-class error
  `_request` ends in after its retries. -/
  transport : Except String String
  /-- parsing the response: the campaign records, or an `Exception`-class
  parse error. -/
  parseResult : Except String (List String)

/-- `_authenticate` of the complete optimizer: `sys.exit(1)` on failure. -/
def authenticateOutcome (env : ReadEnv) : Except PyErr Unit :=
  if env.authExchangeOk then .ok () else .error (.sysExit 1)

/-- `_refresh_auth_if_needed`: refresh only when the token is expired. -/
def refreshOutcome (env : ReadEnv) : Except PyErr Unit :=
  if env.tokenExpired then authenticateOutcome env else .ok ()

/-- `_request` of the complete optimizer: headers (auth refresh) first, then
the transport; transport failures surface as `Exception`-class errors. -/
def requestOutcome (env : ReadEnv) : Except PyErr String :=
  match refreshOutcome env with
  | .error e => .error e
  | .ok () =>
      match env.transport with
      | .ok body => .ok body
      | .error m => .error (.exc m)

/-- `get_campaigns` of the complete optimizer: the `try` body around request
and parse, with `except Exception: return []`. -/
def getCampaigns (env : ReadEnv) : Except PyErr (List String) :=
  match requestOutcome env with
  | .ok _ =>
      match env.parseResult with
      | .ok cs => .ok cs
      | .error _ => .ok []
  | .error (.exc _) => .ok []
  | .error e => .error e

/-- `_refresh_access_token` of the fixed client: failures re-raise the
original `requests` exception, which is `Exception`-class. -/
def fixedAuthenticateOutcome (env : ReadEnv) : Except PyErr Unit :=
  if env.authExchangeOk then .ok () else .error (.exc "Failed to refresh token")

/-- `_request` of the fixed client (`_get_headers` refreshes on expiry). -/
def fixedRequestOutcome (env : ReadEnv) : Except PyErr String :=
  match (if env.tokenExpired then fixedAuthenticateOutcome env else .ok ()) with
  | .error e => .error e
  | .ok () =>
      match env.transport with
      | .ok body => .ok body
      | .error m => .error (.exc m)

/-- `list_campaigns` of the fixed client, same `try` / `except Exception`
shape. -/
def listCampaigns (env : ReadEnv) : Except PyErr (List String) :=
  match fixedRequestOutcome env with
  | .ok _ =>
      match env.parseResult with
      | .ok cs => .ok cs
      | .error _ => .ok []
  | .error (.exc _) => .ok []
  | .error e => .error e

/-! ## Definitions: feature modules and the dry-run frame

From `amazon_ppc_optimizer.py`: `BidOptimizer.optimize` (lines 775-855, with
`_calculate_new_bid`, lines 857-892), `DaypartingManager.apply_dayparting`
(lines 916-993), `CampaignManager.manage_campaigns` (lines 1004-1094),
`KeywordDiscovery.discover_keywords` (lines 1105-1205), and
`NegativeKeywordManager.add_negative_keywords` (lines 1216-1304).

The report each module fetches (`create_report` / `wait_for_report` /
`download_report`) and the entity lists (`get_keywords`, `get_campaigns`,
`get_negative_keywords`) are the module's read inputs; they are passed in as
parameters.  The module's effect on the remote system is its list of write
API calls (`update_keyword_bid`, `update_campaign`, `create_keywords`,
`create_negative_keywords`), collected in program order; each emission site
keeps the source's `if not dry_run:` guard.  Audit entries keep the semantic
payload of `AuditLogger.log` (the interpolated f-string money formatting is
elided: amounts stay rationals).  Query strings are taken as already
`.strip().lower()`-normalized.  Python's `round(x, 2)` (half-even on the
exact value) is `round2`. -/

/-- Banker's rounding of a rational to an integer (Python `round`). -/
def roundHalfEven (q : ℚ) : ℤ :=
  let f := ⌊q⌋
  let frac := q - (f : ℚ)
  if frac < 1 / 2 then f
  else if 1 / 2 < frac then f + 1
  else if f % 2 = 0 then f else f + 1

/-- Python `round(x, 2)`. -/
def round2 (q : ℚ) : ℚ :=
  (roundHalfEven (q * 100) : ℚ) / 100

/-- `Keyword` dataclass. -/
structure Keyword where
  keywordId : String
  adGroupId : String
  campaignId : String
  keywordText : String
  matchType : String
  state : String
  bid : ℚ

/-- `Campaign` dataclass (fields used by the modules). -/
structure Campaign where
  campaignId : String
  name : String
  state : String
  dailyBudget : ℚ
  targetingType : String

/-- An old/new value as recorded by the audit logger. -/
inductive AuditVal where
  | money (amount : ℚ)
  | txt (s : String)

/-- One `AuditLogger.log` entry. -/
structure AuditRec where
  actionType : String
  entityType : String
  entityId : String
  oldValue : AuditVal
  newValue : AuditVal
  reason : String
  dryRun : Bool

/-- `{'campaignId', 'adGroupId', 'keywordText', 'matchType', 'state', 'bid'}`
passed to `create_keywords`. -/
structure NewKeyword where
  campaignId : String
  adGroupId : String
  keywordText : String
  matchType : String
  state : String
  bid : ℚ
  deriving DecidableEq

/-- The dict passed to `create_negative_keywords`. -/
structure NewNegative where
  campaignId : String
  keywordText : String
  matchType : String
  state : String
  deriving DecidableEq

/-- A write API call issued by a feature module. -/
inductive WriteCall where
  | updateKeywordBid (keywordId : String) (bid : ℚ)
  | updateCampaign (campaignId : String) (newState : String)
  | createKeywords (batch : List NewKeyword)
  | createNegativeKeywords (batch : List NewNegative)

/-- `range(0, len(l), n)` slicing into batches of at most `n` (the modules
batch writes 100 at a time). -/
def chunksOf (n : ℕ) : List α → List (List α)
  | [] => []
  | x :: xs => (x :: xs.take (n - 1)) :: chunksOf n (xs.drop (n - 1))
  termination_by l => l.length
  decreasing_by simp; omega

/-- The `bid_optimization.*` configuration block. -/
structure BidCfg where
  minClicks : ℕ
  minSpend : ℚ
  targetAcos : ℚ
  highAcos : ℚ
  lowAcos : ℚ
  upPct : ℚ
  downPct : ℚ
  minBid : ℚ
  maxBid : ℚ

/-- One keyword row of the downloaded performance report (string CSV values
already converted, as the loop converts them with `int(... or 0)` /
`float(... or 0)`); an absent `keywordId` is the empty string. -/
structure BidRow where
  keywordId : String
  impressions : ℕ
  clicks : ℕ
  cost : ℚ
  sales : ℚ
  orders : ℕ

/-- `_calculate_new_bid(keyword, metrics)`: `None` means no change; a value
is already clamped to `[min_bid, max_bid]` and rounded to cents.
`metrics.acos` is `cost / sales` when `sales > 0`, else `+inf` (so any
comparison `acos > threshold` holds whenever `sales ≤ 0`). -/
def calculateNewBid (cfg : BidCfg) (currentBid : ℚ) (clicks : ℕ) (cost sales : ℚ) :
    Option ℚ :=
  if clicks < cfg.minClicks ∧ cost < cfg.minSpend then none
  else if sales ≤ 0 ∧ cfg.minClicks ≤ clicks then
    some (round2 (max cfg.minBid (min cfg.maxBid (currentBid * (1 - cfg.downPct)))))
  else if (0 < sales ∧ cfg.highAcos < cost / sales) ∨ sales ≤ 0 then
    some (round2 (max cfg.minBid (min cfg.maxBid (currentBid * (1 - cfg.downPct)))))
  else if cost / sales < cfg.lowAcos ∧ 0 < sales then
    some (round2 (max cfg.minBid (min cfg.maxBid (currentBid * (1 + cfg.upPct)))))
  else none

/-- What one report row leads to inside `BidOptimizer.optimize`'s loop. -/
inductive BidRowOutcome where
  /-- `keywordId` falsy or not in the keyword map: `continue`, not analyzed. -/
  | skipped
  /-- analyzed, but no bid change fired (`new_bid` `None`, `0`, or within one
  cent of the current bid). -/
  | noChange
  /-- analyzed and a bid change fired. -/
  | changeBid (keywordId : String) (oldBid newBid : ℚ)

/-- The per-row decision of `BidOptimizer.optimize` (`if not keyword_id or
keyword_id not in keyword_map: continue`, then `_calculate_new_bid`, then
`if new_bid and abs(new_bid - keyword.bid) > 0.01`). -/
def bidRowOutcome (cfg : BidCfg) (keywords : List Keyword) (row : BidRow) : BidRowOutcome :=
  if row.keywordId = "" then .skipped
  else
    match List.find? (fun k => decide (k.keywordId = row.keywordId)) keywords with
    | none => .skipped
    | some kw =>
        match calculateNewBid cfg kw.bid row.clicks row.cost row.sales with
        | none => .noChange
        | some nb =>
            if ¬nb = 0 ∧ 1 / 100 < |nb - kw.bid| then .changeBid row.keywordId kw.bid nb
            else .noChange

/-- The `results` dict of `BidOptimizer.optimize`. -/
structure BidResults where
  keywordsAnalyzed : ℕ
  bidsIncreased : ℕ
  bidsDecreased : ℕ
  noChange : ℕ

/-- `BidOptimizer.optimize` over the downloaded report rows: results, audit
entries, and write API calls in program order.  `update_keyword_bid` is
issued only under `if not dry_run:`. -/
def optimize (cfg : BidCfg) (keywords : List Keyword) (dryRun : Bool) :
    List BidRow → BidResults × List AuditRec × List WriteCall
  | [] => (⟨0, 0, 0, 0⟩, [], [])
  | row :: rest =>
      let r := optimize cfg keywords dryRun rest
      match bidRowOutcome cfg keywords row with
      | .skipped => r
      | .noChange =>
          (⟨r.1.keywordsAnalyzed + 1, r.1.bidsIncreased, r.1.bidsDecreased, r.1.noChange + 1⟩,
           r.2.1, r.2.2)
      | .changeBid kid old nb =>
          (⟨r.1.keywordsAnalyzed + 1,
            r.1.bidsIncreased + (if old < nb then 1 else 0),
            r.1.bidsDecreased + (if old < nb then 0 else 1),
            r.1.noChange⟩,
           ⟨"BID_UPDATE", "KEYWORD", kid, .money old, .money nb,
             "ACOS/CTR bid rule", dryRun⟩ :: r.2.1,
           if dryRun then r.2.2 else .updateKeywordBid kid nb :: r.2.2)

/-- The `dayparting.*` configuration block; the multiplier maps are total
(`config.get(..., 1.0)` defaulting is already applied). -/
structure DaypartCfg where
  enabled : Bool
  dayMultipliers : String → ℚ
  hourMultipliers : ℕ → ℚ
  minMultiplier : ℚ
  maxMultiplier : ℚ
  minBid : ℚ
  maxBid : ℚ

/-- `DaypartingManager._get_multiplier`. -/
def getMultiplier (cfg : DaypartCfg) (hour : ℕ) (day : String) : ℚ :=
  max cfg.minMultiplier
    (min cfg.maxMultiplier (cfg.dayMultipliers day * cfg.hourMultipliers hour))

/-- The keyword loop of `apply_dayparting`, threading the `base_bids` store
(empty at the start of a run; a keyword's bid is recorded on first sight and
the recorded value is used). -/
def daypartGo (cfg : DaypartCfg) (mult : ℚ) (dryRun : Bool) :
    List Keyword → List (String × ℚ) → ℕ × List AuditRec × List WriteCall
  | [], _ => (0, [], [])
  | kw :: rest, baseBids =>
      let baseBids' :=
        if (List.find? (fun p => decide (p.1 = kw.keywordId)) baseBids).isNone
        then (kw.keywordId, kw.bid) :: baseBids else baseBids
      let base :=
        (((List.find? (fun p => decide (p.1 = kw.keywordId)) baseBids').map
          (fun p => p.2)).getD kw.bid)
      let nb := round2 (max cfg.minBid (min cfg.maxBid (base * mult)))
      let r := daypartGo cfg mult dryRun rest baseBids'
      if 1 / 100 < |nb - kw.bid| then
        (r.1 + 1,
         ⟨"DAYPARTING_ADJUSTMENT", "KEYWORD", kw.keywordId, .money kw.bid, .money nb,
           "dayparting multiplier", dryRun⟩ :: r.2.1,
         if dryRun then r.2.2 else .updateKeywordBid kw.keywordId nb :: r.2.2)
      else r

/-- `DaypartingManager.apply_dayparting`: returns whether it ran (disabled
dayparting returns the empty dict at once), the `keywords_updated` count, the
audit entries, and the write calls. -/
def applyDayparting (cfg : DaypartCfg) (hour : ℕ) (day : String) (keywords : List Keyword)
    (dryRun : Bool) : Bool × ℕ × List AuditRec × List WriteCall :=
  if cfg.enabled then
    (true, daypartGo cfg (getMultiplier cfg hour day) dryRun keywords [])
  else (false, 0, [], [])

/-- The `campaign_management.*` configuration block. -/
structure CampCfg where
  acosThreshold : ℚ
  minSpend : ℚ

/-- One campaign row of the downloaded report. -/
structure CampRow where
  campaignId : String
  cost : ℚ
  sales : ℚ

/-- What one report row leads to inside `manage_campaigns`'s loop. -/
inductive CampRowOutcome where
  | skipped
  | noChange
  | activate (campaignId oldState : String)
  | pause (campaignId oldState : String)

/-- The per-row decision of `CampaignManager.manage_campaigns`: skip unknown
ids, `no_change` under the spend floor, activate on ACOS strictly below the
threshold for a non-enabled campaign, pause on ACOS strictly above it for an
enabled one (ACOS is `+inf` when `sales ≤ 0`). -/
def campRowOutcome (cfg : CampCfg) (campaigns : List Campaign) (row : CampRow) :
    CampRowOutcome :=
  if row.campaignId = "" then .skipped
  else
    match List.find? (fun c => decide (c.campaignId = row.campaignId)) campaigns with
    | none => .skipped
    | some c =>
        if row.cost < cfg.minSpend then .noChange
        else if (0 < row.sales ∧ row.cost / row.sales < cfg.acosThreshold) ∧
            ¬c.state = "enabled" then
          .activate row.campaignId c.state
        else if ((0 < row.sales ∧ cfg.acosThreshold < row.cost / row.sales) ∨ row.sales ≤ 0) ∧
            c.state = "enabled" then
          .pause row.campaignId c.state
        else .noChange

/-- The `results` dict of `manage_campaigns`. -/
structure CampResults where
  campaignsActivated : ℕ
  campaignsPaused : ℕ
  noChange : ℕ

/-- `CampaignManager.manage_campaigns` over the report rows; `update_campaign`
is issued only under `if not dry_run:`. -/
def manageCampaigns (cfg : CampCfg) (campaigns : List Campaign) (dryRun : Bool) :
    List CampRow → CampResults × List AuditRec × List WriteCall
  | [] => (⟨0, 0, 0⟩, [], [])
  | row :: rest =>
      let r := manageCampaigns cfg campaigns dryRun rest
      match campRowOutcome cfg campaigns row with
      | .skipped => r
      | .noChange => (⟨r.1.campaignsActivated, r.1.campaignsPaused, r.1.noChange + 1⟩,
          r.2.1, r.2.2)
      | .activate cid old =>
          (⟨r.1.campaignsActivated + 1, r.1.campaignsPaused, r.1.noChange⟩,
           ⟨"CAMPAIGN_ACTIVATE", "CAMPAIGN", cid, .txt old, .txt "enabled",
             "ACOS below threshold", dryRun⟩ :: r.2.1,
           if dryRun then r.2.2 else .updateCampaign cid "enabled" :: r.2.2)
      | .pause cid old =>
          (⟨r.1.campaignsActivated, r.1.campaignsPaused + 1, r.1.noChange⟩,
           ⟨"CAMPAIGN_PAUSE", "CAMPAIGN", cid, .txt old, .txt "paused",
             "ACOS above threshold", dryRun⟩ :: r.2.1,
           if dryRun then r.2.2 else .updateCampaign cid "paused" :: r.2.2)

/-- The `keyword_discovery.*` configuration block. -/
structure DiscCfg where
  minClicks : ℕ
  maxAcos : ℚ
  initialBid : ℚ

/-- One search-term row of the downloaded report (query already
`.strip().lower()`-normalized). -/
structure QueryRow where
  query : String
  adGroupId : String
  campaignId : String
  clicks : ℕ
  cost : ℚ
  sales : ℚ

/-- The collection loop of `discover_keywords`: counts discoveries, builds
`new_keywords_to_add` (in row order) and the audit entries; no write happens
in this loop. -/
def discoverCollect (cfg : DiscCfg) (existing : List Keyword) (dryRun : Bool) :
    List QueryRow → ℕ × List NewKeyword × List AuditRec
  | [] => (0, [], [])
  | row :: rest =>
      let r := discoverCollect cfg existing dryRun rest
      if row.query = "" ∨ row.adGroupId = "" then r
      else if row.clicks < cfg.minClicks then r
      else if (0 < row.sales ∧ cfg.maxAcos < row.cost / row.sales) ∨ row.sales ≤ 0 then r
      else if existing.any (fun kw => decide (kw.adGroupId = row.adGroupId ∧
          kw.keywordText = row.query ∧ kw.matchType = "exact")) then r
      else
        (r.1 + 1,
         ⟨row.campaignId, row.adGroupId, row.query, "exact", "enabled", cfg.initialBid⟩ :: r.2.1,
         ⟨"KEYWORD_DISCOVERY", "KEYWORD", "NEW", .txt "", .txt row.query,
           "high-performing search term", dryRun⟩ :: r.2.2)

/-- The `results` dict of `discover_keywords`.  In a live run
`keywords_added` counts the per-element SUCCESS codes of the batch responses;
the embedding counts the submitted keywords (an all-success transport). -/
structure DiscResults where
  keywordsDiscovered : ℕ
  keywordsAdded : ℕ

/-- `KeywordDiscovery.discover_keywords`: collect, then
`if new_keywords_to_add and not dry_run:` submit `create_keywords` in batches
of 100, `elif dry_run:` only count. -/
def discoverKeywords (cfg : DiscCfg) (existing : List Keyword) (dryRun : Bool)
    (rows : List QueryRow) : DiscResults × List AuditRec × List WriteCall :=
  let c := discoverCollect cfg existing dryRun rows
  if ¬c.2.1 = [] ∧ dryRun = false then
    (⟨c.1, c.2.1.length⟩, c.2.2, (chunksOf 100 c.2.1).map WriteCall.createKeywords)
  else if dryRun = true then
    (⟨c.1, c.2.1.length⟩, c.2.2, [])
  else (⟨c.1, 0⟩, c.2.2, [])

/-- The `negative_keywords.*` configuration block. -/
structure NegCfg where
  minSpend : ℚ
  maxAcos : ℚ

/-- One search-term row as used by `add_negative_keywords`. -/
structure NegRow where
  query : String
  campaignId : String
  cost : ℚ
  sales : ℚ

/-- The collection loop of `add_negative_keywords`: the existing negatives are
the `(campaignId, keyword_text.lower())` pairs fetched beforehand. -/
def negCollect (cfg : NegCfg) (existing : List (String × String)) (dryRun : Bool) :
    List NegRow → List NewNegative × List AuditRec
  | [] => ([], [])
  | row :: rest =>
      let r := negCollect cfg existing dryRun rest
      if row.query = "" ∨ row.campaignId = "" then r
      else if row.cost < cfg.minSpend then r
      else if 0 < row.sales ∧ row.cost / row.sales < cfg.maxAcos then r
      else if existing.any (fun p => decide (p.1 = row.campaignId ∧ p.2 = row.query)) then r
      else
        (⟨row.campaignId, row.query, "negativePhrase", "enabled"⟩ :: r.1,
         ⟨"NEGATIVE_KEYWORD_ADD", "NEGATIVE_KEYWORD", row.campaignId, .txt "", .txt row.query,
           "poor performer", dryRun⟩ :: r.2)

/-- `NegativeKeywordManager.add_negative_keywords`: collect, then
`if negatives_to_add and not dry_run:` submit `create_negative_keywords` in
batches of 100, `elif dry_run:` only count.  Returns the
`negative_keywords_added` count, audit entries, and write calls. -/
def addNegativeKeywords (cfg : NegCfg) (existing : List (String × String)) (dryRun : Bool)
    (rows : List NegRow) : ℕ × List AuditRec × List WriteCall :=
  let c := negCollect cfg existing dryRun rows
  if ¬c.1 = [] ∧ dryRun = false then
    (c.1.length, c.2, (chunksOf 100 c.1).map WriteCall.createNegativeKeywords)
  else if dryRun = true then (c.1.length, c.2, [])
  else (0, c.2, [])

end PPC

/-! ## Theorems -/

namespace PPC

/-- Unfolding: no attempts remain. -/
theorem requestGo_zero (transport : ℕ → TransportResp) (base maxDelay attempt : ℕ) :
    requestGo transport base maxDelay 0 attempt = (.maxRetriesExceeded, 0, []) := by
  rw [requestGo.eq_def]

/-- Unfolding: a rate-limited response sleeps and continues the loop. -/
theorem requestGo_rateLimited (transport : ℕ → TransportResp) (base maxDelay fuel attempt : ℕ)
    (hrl : isRateLimited (transport attempt).status = true) :
    requestGo transport base maxDelay (fuel + 1) attempt
      = ((requestGo transport base maxDelay fuel (attempt + 1)).1,
         (requestGo transport base maxDelay fuel (attempt + 1)).2.1 + 1,
         (if (transport attempt).retryAfter = 0 then backoffDelay base maxDelay attempt
          else (transport attempt).retryAfter)
           :: (requestGo transport base maxDelay fuel (attempt + 1)).2.2) := by
  rw [requestGo.eq_def]
  simp only [hrl, if_true]

/-- Unfolding: an error-class response on the last budgeted attempt re-raises
the `HTTPError`, which carries the response. -/
theorem requestGo_httpError_last (transport : ℕ → TransportResp) (base maxDelay attempt : ℕ)
    (hrl : isRateLimited (transport attempt).status = false)
    (hhe : isHttpError (transport attempt).status = true) :
    requestGo transport base maxDelay 1 attempt
      = (.httpError (transport attempt).status (transport attempt).body, 1, []) := by
  rw [requestGo.eq_def]
  simp only [hrl, hhe, if_true, if_false, Bool.false_eq_true]

/-- Unfolding: an error-class response with attempts remaining backs off
exponentially and retries. -/
theorem requestGo_httpError (transport : ℕ → TransportResp) (base maxDelay fuel attempt : ℕ)
    (hrl : isRateLimited (transport attempt).status = false)
    (hhe : isHttpError (transport attempt).status = true) :
    requestGo transport base maxDelay (fuel + 1 + 1) attempt
      = ((requestGo transport base maxDelay (fuel + 1) (attempt + 1)).1,
         (requestGo transport base maxDelay (fuel + 1) (attempt + 1)).2.1 + 1,
         backoffDelay base maxDelay attempt
           :: (requestGo transport base maxDelay (fuel + 1) (attempt + 1)).2.2) := by
  rw [requestGo.eq_def]
  simp only [hrl, hhe, if_true, if_false, Bool.false_eq_true]

/-- If the response to the next attempt is neither rate-limited nor
error-class, the loop returns it at once: one request, no waiting. -/
theorem requestGo_immediate (transport : ℕ → TransportResp) (base maxDelay fuel attempt : ℕ)
    (h : isFailure (transport attempt) = false) :
    requestGo transport base maxDelay (fuel + 1) attempt
      = (.success (transport attempt).status (transport attempt).body, 1, []) := by
  have h1 : isRateLimited (transport attempt).status = false := by
    cases hrl : isRateLimited (transport attempt).status with
    | false => rfl
    | true => simp [isFailure, hrl] at h
  have h2 : isHttpError (transport attempt).status = false := by
    cases hhe : isHttpError (transport attempt).status with
    | false => rfl
    | true => simp [isFailure, hhe] at h
  rw [requestGo.eq_def]
  simp [h1, h2]

/-- If attempts `0..k-1` (relative to `attempt`) fail and attempt `k`
succeeds, with `k` inside the remaining budget, the loop returns that
response after exactly `k + 1` requests. -/
theorem requestGo_first_success (transport : ℕ → TransportResp) (base maxDelay : ℕ) :
    ∀ (k fuel attempt : ℕ), k < fuel →
    (∀ i, i < k → isFailure (transport (attempt + i)) = true) →
    isFailure (transport (attempt + k)) = false →
    (requestGo transport base maxDelay fuel attempt).1
        = .success (transport (attempt + k)).status (transport (attempt + k)).body ∧
    (requestGo transport base maxDelay fuel attempt).2.1 = k + 1 := by
  intro k
  induction k with
  | zero =>
      intro fuel attempt hk _ hok
      obtain ⟨fuel', rfl⟩ : ∃ f, fuel = f + 1 := ⟨fuel - 1, by omega⟩
      rw [requestGo_immediate transport base maxDelay fuel' attempt (by simpa using hok)]
      simp
  | succ k ih =>
      intro fuel attempt hk hfail hok
      obtain ⟨fuel', rfl⟩ : ∃ f, fuel = f + 1 := ⟨fuel - 1, by omega⟩
      have hfail0 : isFailure (transport attempt) = true := by simpa using hfail 0 (by omega)
      have hfail' : ∀ i, i < k → isFailure (transport (attempt + 1 + i)) = true := by
        intro i hi
        have := hfail (i + 1) (by omega)
        simpa [Nat.add_assoc, Nat.add_comm 1 i] using this
      have hok' : isFailure (transport (attempt + 1 + k)) = false := by
        have h : attempt + 1 + k = attempt + (k + 1) := by omega
        rw [h]; exact hok
      have hk' : k < fuel' := by omega
      have harg : attempt + 1 + k = attempt + (k + 1) := by omega
      cases hrl : isRateLimited (transport attempt).status with
      | true =>
          have hres := ih fuel' (attempt + 1) hk' hfail' hok'
          rw [harg] at hres
          rw [requestGo_rateLimited transport base maxDelay fuel' attempt hrl]
          exact ⟨hres.1, by simp [hres.2]⟩
      | false =>
          have hhe : isHttpError (transport attempt).status = true := by
            simpa [isFailure, hrl] using hfail0
          obtain ⟨f2, rfl⟩ : ∃ f, fuel' = f + 1 := ⟨fuel' - 1, by omega⟩
          have hres := ih (f2 + 1) (attempt + 1) hk' hfail' hok'
          rw [harg] at hres
          rw [requestGo_httpError transport base maxDelay f2 attempt hrl hhe]
          exact ⟨hres.1, by simp [hres.2]⟩

/-- If all `f + 1` budgeted attempts fail, exactly `f + 1` requests are
issued; the loop ends in the re-raised `HTTPError` of the last response when
that response was error-class, and in the bare max-retries exception (no
status, no body) when it was a rate-limit response. -/
theorem requestGo_exhaust (transport : ℕ → TransportResp) (base maxDelay : ℕ) :
    ∀ (f attempt : ℕ), (∀ i, i < f + 1 → isFailure (transport (attempt + i)) = true) →
    (requestGo transport base maxDelay (f + 1) attempt).2.1 = f + 1 ∧
    (isRateLimited (transport (attempt + f)).status = true →
        (requestGo transport base maxDelay (f + 1) attempt).1 = .maxRetriesExceeded) ∧
    (isRateLimited (transport (attempt + f)).status = false →
        (requestGo transport base maxDelay (f + 1) attempt).1
          = .httpError (transport (attempt + f)).status (transport (attempt + f)).body) := by
  intro f
  induction f with
  | zero =>
      intro attempt hfail
      have h0 : isFailure (transport attempt) = true := by simpa using hfail 0 (by omega)
      cases hrl : isRateLimited (transport attempt).status with
      | true =>
          rw [requestGo_rateLimited transport base maxDelay 0 attempt hrl, requestGo_zero]
          refine ⟨rfl, fun _ => rfl, fun hlast => ?_⟩
          rw [Nat.add_zero] at hlast
          rw [hlast] at hrl
          exact absurd hrl (by simp)
      | false =>
          have hhe : isHttpError (transport attempt).status = true := by
            simpa [isFailure, hrl] using h0
          rw [requestGo_httpError_last transport base maxDelay attempt hrl hhe]
          refine ⟨rfl, fun hlast => ?_, fun _ => by rw [Nat.add_zero]⟩
          rw [Nat.add_zero] at hlast
          rw [hlast] at hrl
          exact absurd hrl (by simp)
  | succ f ih =>
      intro attempt hfail
      have h0 : isFailure (transport attempt) = true := by simpa using hfail 0 (by omega)
      have hfail' : ∀ i, i < f + 1 → isFailure (transport (attempt + 1 + i)) = true := by
        intro i hi
        have := hfail (i + 1) (by omega)
        simpa [Nat.add_assoc, Nat.add_comm 1 i] using this
      have harg : attempt + 1 + f = attempt + (f + 1) := by omega
      have hrec := ih (attempt + 1) hfail'
      rw [harg] at hrec
      cases hrl : isRateLimited (transport attempt).status with
      | true =>
          rw [requestGo_rateLimited transport base maxDelay (f + 1) attempt hrl]
          exact ⟨by simp [hrec.1], fun hlast => hrec.2.1 hlast, fun hlast => hrec.2.2 hlast⟩
      | false =>
          have hhe : isHttpError (transport attempt).status = true := by
            simpa [isFailure, hrl] using h0
          rw [requestGo_httpError transport base maxDelay f attempt hrl hhe]
          exact ⟨by simp [hrec.1], fun hlast => hrec.2.1 hlast, fun hlast => hrec.2.2 hlast⟩

/-- A run of error-class responses sleeps the exponential backoff
`min(base * 2^attempt, maxDelay)` between consecutive attempts (none after
the last). -/
theorem requestGo_waits_httpError (transport : ℕ → TransportResp) (base maxDelay : ℕ) :
    ∀ (f attempt : ℕ),
    (∀ i, i < f + 1 → isRateLimited (transport (attempt + i)).status = false ∧
        isHttpError (transport (attempt + i)).status = true) →
    (requestGo transport base maxDelay (f + 1) attempt).2.2
      = (List.range f).map (fun i => backoffDelay base maxDelay (attempt + i)) := by
  intro f
  induction f with
  | zero =>
      intro attempt h
      have h0 := h 0 (by omega)
      rw [Nat.add_zero] at h0
      rw [requestGo_httpError_last transport base maxDelay attempt h0.1 h0.2]
      simp
  | succ f ih =>
      intro attempt h
      have h0 := h 0 (by omega)
      rw [Nat.add_zero] at h0
      have h' : ∀ i, i < f + 1 → isRateLimited (transport (attempt + 1 + i)).status = false ∧
          isHttpError (transport (attempt + 1 + i)).status = true := by
        intro i hi
        have := h (i + 1) (by omega)
        simpa [Nat.add_assoc, Nat.add_comm 1 i] using this
      rw [requestGo_httpError transport base maxDelay f attempt h0.1 h0.2]
      rw [show (requestGo transport base maxDelay (f + 1) (attempt + 1)).2.2
            = (List.range f).map (fun i => backoffDelay base maxDelay (attempt + 1 + i))
          from ih (attempt + 1) h']
      rw [List.range_succ_eq_map, List.map_cons, List.map_map]
      refine congrArg₂ _ (by rw [Nat.add_zero]) ?_
      refine List.map_congr_left ?_
      intro i _
      simp only [Function.comp_apply, Nat.succ_eq_add_one]
      exact congrArg _ (by omega)

/-- A run of rate-limited responses with no `Retry-After` header sleeps the
exponential backoff after every attempt, the last included. -/
theorem requestGo_waits_rateLimited (transport : ℕ → TransportResp) (base maxDelay : ℕ) :
    ∀ (f attempt : ℕ),
    (∀ i, i < f → isRateLimited (transport (attempt + i)).status = true ∧
        (transport (attempt + i)).retryAfter = 0) →
    (requestGo transport base maxDelay f attempt).2.2
      = (List.range f).map (fun i => backoffDelay base maxDelay (attempt + i)) := by
  intro f
  induction f with
  | zero =>
      intro attempt _
      rw [requestGo_zero]
      simp
  | succ f ih =>
      intro attempt h
      have h0 := h 0 (by omega)
      rw [Nat.add_zero] at h0
      have h' : ∀ i, i < f → isRateLimited (transport (attempt + 1 + i)).status = true ∧
          (transport (attempt + 1 + i)).retryAfter = 0 := by
        intro i hi
        have := h (i + 1) (by omega)
        simpa [Nat.add_assoc, Nat.add_comm 1 i] using this
      rw [requestGo_rateLimited transport base maxDelay f attempt h0.1]
      rw [show (requestGo transport base maxDelay f (attempt + 1)).2.2
            = (List.range f).map (fun i => backoffDelay base maxDelay (attempt + 1 + i))
          from ih (attempt + 1) h']
      rw [if_pos h0.2]
      rw [List.range_succ_eq_map, List.map_cons, List.map_map]
      refine congrArg₂ _ (by rw [Nat.add_zero]) ?_
      refine List.map_congr_left ?_
      intro i _
      simp only [Function.comp_apply, Nat.succ_eq_add_one]
      exact congrArg _ (by omega)

/-- C1 (amended): against any scripted transport, `_request` (i) returns the
first non-failure (e.g. 2xx) response immediately, with one request issued and
no waiting; (ii) more generally returns the first non-failure response after
`k` failed attempts using `k + 1` requests when `k` is within the budget;
(iii) when all `max_retries` budgeted attempts fail it stops after exactly
`max_retries` requests, and the failure carries the last observed status and
body precisely when the final response was error-class — a run whose final
response was a rate-limit (429/425) ends in the bare max-retries exception
instead, which carries neither; (iv) between error-class attempts it sleeps
the exponential backoff `min(base * 2^attempt, max_delay)`, and (v) after
rate-limited attempts without a `Retry-After` header it sleeps the same
exponential backoff. -/
theorem request_retry_spec (transport : ℕ → TransportResp) (maxRetries base maxDelay : ℕ) :
    (isFailure (transport 0) = false → 1 ≤ maxRetries →
      request transport maxRetries base maxDelay
        = (.success (transport 0).status (transport 0).body, 1, [])) ∧
    (∀ k, k < maxRetries → (∀ i, i < k → isFailure (transport i) = true) →
      isFailure (transport k) = false →
      (request transport maxRetries base maxDelay).1
          = .success (transport k).status (transport k).body ∧
      (request transport maxRetries base maxDelay).2.1 = k + 1) ∧
    (1 ≤ maxRetries → (∀ i, i < maxRetries → isFailure (transport i) = true) →
      (request transport maxRetries base maxDelay).2.1 = maxRetries ∧
      (isRateLimited (transport (maxRetries - 1)).status = true →
        (request transport maxRetries base maxDelay).1 = .maxRetriesExceeded) ∧
      (isRateLimited (transport (maxRetries - 1)).status = false →
        (request transport maxRetries base maxDelay).1
          = .httpError (transport (maxRetries - 1)).status (transport (maxRetries - 1)).body)) ∧
    (1 ≤ maxRetries →
      (∀ i, i < maxRetries → isRateLimited (transport i).status = false ∧
          isHttpError (transport i).status = true) →
      (request transport maxRetries base maxDelay).2.2
        = (List.range (maxRetries - 1)).map (backoffDelay base maxDelay)) ∧
    ((∀ i, i < maxRetries → isRateLimited (transport i).status = true ∧
          (transport i).retryAfter = 0) →
      (request transport maxRetries base maxDelay).2.2
        = (List.range maxRetries).map (backoffDelay base maxDelay)) := by
  refine ⟨?_, ?_, ?_, ?_, ?_⟩
  · intro h hm
    obtain ⟨f, rfl⟩ : ∃ f, maxRetries = f + 1 := ⟨maxRetries - 1, by omega⟩
    exact requestGo_immediate transport base maxDelay f 0 h
  · intro k hk hfail hok
    have h := requestGo_first_success transport base maxDelay k maxRetries 0 hk
      (fun i hi => by simpa using hfail i hi) (by simpa using hok)
    simpa using h
  · intro hm hfail
    obtain ⟨f, rfl⟩ : ∃ f, maxRetries = f + 1 := ⟨maxRetries - 1, by omega⟩
    have h := requestGo_exhaust transport base maxDelay f 0
      (fun i hi => by simpa using hfail i (by omega))
    simpa using h
  · intro hm hfail
    obtain ⟨f, rfl⟩ : ∃ f, maxRetries = f + 1 := ⟨maxRetries - 1, by omega⟩
    have h := requestGo_waits_httpError transport base maxDelay f 0
      (fun i hi => by simpa using hfail i (by omega))
    simpa using h
  · intro hfail
    have h := requestGo_waits_rateLimited transport base maxDelay maxRetries 0
      (fun i hi => by simpa using hfail i hi)
    simpa using h

/-- C1 counterexample to the claim as stated: when every budgeted attempt ends
in a rate-limit response (scripted sequence `[429, 429, 429]` with
`max_retries = 3`), the call does fail after exactly 3 attempts, but with the
bare `Exception("Max retries exceeded")`, which carries neither the last
observed status nor the body — not with an `ApiError{status, body}`. -/
theorem request_allRateLimited_counterexample :
    (request (scriptTransport [⟨429, "slow down", 0⟩, ⟨429, "slow down", 0⟩,
        ⟨429, "slow down", 0⟩]) 3 5 120).2.1 = 3 ∧
    (request (scriptTransport [⟨429, "slow down", 0⟩, ⟨429, "slow down", 0⟩,
        ⟨429, "slow down", 0⟩]) 3 5 120).1 = .maxRetriesExceeded ∧
    ReqOutcome.carriesStatusBody
      (request (scriptTransport [⟨429, "slow down", 0⟩, ⟨429, "slow down", 0⟩,
        ⟨429, "slow down", 0⟩]) 3 5 120).1 = false := by
  refine ⟨?_, ?_, ?_⟩ <;> decide

/-- Witness for C1 on the spec's own scripted sequences: `[429, 429, 200]`
succeeds on the 3rd attempt, and `[500, 500, 500, 500]` with `max_retries = 3`
raises after exactly 3 attempts, carrying the last status and body. -/
theorem request_retry_spec_witness :
    (request (scriptTransport [⟨429, "tm", 0⟩, ⟨429, "tm", 0⟩, ⟨200, "ok", 0⟩]) 3 5 120).1
        = .success 200 "ok" ∧
    (request (scriptTransport [⟨429, "tm", 0⟩, ⟨429, "tm", 0⟩, ⟨200, "ok", 0⟩]) 3 5 120).2.1
        = 3 ∧
    (request (scriptTransport [⟨500, "err", 0⟩, ⟨500, "err", 0⟩, ⟨500, "err", 0⟩,
        ⟨500, "err", 0⟩]) 3 5 120).2.1 = 3 ∧
    (request (scriptTransport [⟨500, "err", 0⟩, ⟨500, "err", 0⟩, ⟨500, "err", 0⟩,
        ⟨500, "err", 0⟩]) 3 5 120).1 = .httpError 500 "err" := by
  have h1 := (request_retry_spec
      (scriptTransport [⟨429, "tm", 0⟩, ⟨429, "tm", 0⟩, ⟨200, "ok", 0⟩]) 3 5 120).2.1
      2 (by decide) (by decide) (by decide)
  have h2 := (request_retry_spec
      (scriptTransport [⟨500, "err", 0⟩, ⟨500, "err", 0⟩, ⟨500, "err", 0⟩,
        ⟨500, "err", 0⟩]) 3 5 120).2.2.1 (by decide) (by decide)
  exact ⟨h1.1.trans (by decide), h1.2, h2.1, (h2.2.2 (by decide)).trans (by decide)⟩

end PPC

namespace PPC

namespace RateLimiterState

/-- The wait computed by `wait_if_needed` is `max 0 (interval - (now - last))`. -/
theorem waitIfNeeded_fst (interval : ℚ) (s : RateLimiterState) (now : ℚ) :
    (waitIfNeeded interval s now).1 = max 0 (interval - (now - s.lastRequestTime)) := by
  simp only [waitIfNeeded]
  rcases lt_or_le (now - s.lastRequestTime) interval with h | h
  · rw [if_pos h, max_eq_right]
    linarith
  · rw [if_neg (not_lt.mpr h), max_eq_left]
    linarith

/-- In both branches the new `last_request_time` is the reading of the clock
after the (possibly zero) sleep, i.e. the grant instant. -/
theorem waitIfNeeded_snd (interval : ℚ) (s : RateLimiterState) (now : ℚ) :
    (waitIfNeeded interval s now).2.lastRequestTime = now + (waitIfNeeded interval s now).1 := by
  simp [waitIfNeeded]

/-- Any grant is at least `interval` after the stored `last_request_time`. -/
theorem le_grantTime (interval : ℚ) (s : RateLimiterState) (now : ℚ) :
    s.lastRequestTime + interval ≤ now + (waitIfNeeded interval s now).1 := by
  simp only [waitIfNeeded]
  rcases lt_or_le (now - s.lastRequestTime) interval with h | h
  · rw [if_pos h]
    linarith
  · rw [if_neg (not_lt.mpr h)]
    linarith

/-- All grant sequences produced by a fixed-interval limiter are spaced at
least `interval` apart (no admissibility hypothesis is needed: even a call
issued "before" the previous grant is delayed to exactly `interval` past it). -/
theorem grants_spaced (interval : ℚ) :
    ∀ (calls : List ℚ) (s : RateLimiterState), Spaced interval (grants interval s calls) := by
  intro calls
  induction calls with
  | nil => intro s; simp [grants, Spaced]
  | cons now rest ih =>
      intro s
      cases rest with
      | nil => simp [grants, Spaced]
      | cons now2 rest2 =>
          refine ⟨?_, ?_⟩
          · have h := le_grantTime interval (waitIfNeeded interval s now).2 now2
            rw [waitIfNeeded_snd] at h
            simpa [grants] using h
          · simpa [grants] using ih (waitIfNeeded interval s now).2

end RateLimiterState

/-- C2: for a fixed-interval `RateLimiter` with rate `rps` requests per second
(`min_interval = 1 / rps`): the wait is `max(0, min_interval - (now - last))`,
`last_request_time` is set to the new current time (the grant instant) in both
branches, and over every sequence of `wait_if_needed` calls no two consecutive
grants are less than `min_interval` apart. -/
theorem rateLimiter_fixed_interval_spec (rps : ℚ) (s : RateLimiterState) (now : ℚ)
    (calls : List ℚ) :
    (RateLimiterState.waitIfNeeded (1 / rps) s now).1
        = max 0 (1 / rps - (now - s.lastRequestTime)) ∧
    (RateLimiterState.waitIfNeeded (1 / rps) s now).2.lastRequestTime
        = now + (RateLimiterState.waitIfNeeded (1 / rps) s now).1 ∧
    RateLimiterState.Spaced (1 / rps) (RateLimiterState.grants (1 / rps) s calls) :=
  ⟨RateLimiterState.waitIfNeeded_fst _ s now,
   RateLimiterState.waitIfNeeded_snd _ s now,
   RateLimiterState.grants_spaced _ calls s⟩

/-- A single `acquire` preserves the token-count invariant, provided the rate
is nonnegative, the request is nonnegative, and the clock has not gone
backwards since the state's `last_update`. -/
theorem tokenBucket_acquire_preserves_inv (cfg : TokenBucketConfig) (s : TokenBucketState)
    (req now : ℚ) (hr : 0 ≤ cfg.tokensPerSecond) (hreq : 0 ≤ req)
    (hnow : s.lastUpdate ≤ now) (hinv : TokenBucketState.Inv cfg s) :
    TokenBucketState.Inv cfg (TokenBucketState.acquire cfg s req now).2 := by
  obtain ⟨h0, hC⟩ := hinv
  have hCnonneg : 0 ≤ cfg.bucketSize := le_trans h0 hC
  have hrefill0 : 0 ≤ min cfg.bucketSize (s.tokens + (now - s.lastUpdate) * cfg.tokensPerSecond) := by
    refine le_min hCnonneg ?_
    have : 0 ≤ (now - s.lastUpdate) * cfg.tokensPerSecond :=
      mul_nonneg (by linarith) hr
    linarith
  have hrefillC : min cfg.bucketSize (s.tokens + (now - s.lastUpdate) * cfg.tokensPerSecond)
      ≤ cfg.bucketSize := min_le_left _ _
  simp only [TokenBucketState.acquire]
  rcases lt_or_le (min cfg.bucketSize (s.tokens + (now - s.lastUpdate) * cfg.tokensPerSecond))
      req with h | h
  · rw [if_pos h]
    exact ⟨le_refl 0, hCnonneg⟩
  · rw [if_neg (not_lt.mpr h)]
    exact ⟨by simpa using sub_nonneg.mpr h, by dsimp only; linarith⟩

/-- C4: running any admissible sequence of `acquire` operations (positive
requests, non-decreasing call instants) from a state inside the invariant
leaves the stored token count nonnegative and at most `bucket_size`; since the
sequence is arbitrary, the count is inside those bounds after every operation
of any run, in particular for runs starting from the constructor's state. -/
theorem tokenBucket_invariant (cfg : TokenBucketConfig) :
    ∀ (calls : List (ℚ × ℚ)) (s : TokenBucketState),
    0 ≤ cfg.tokensPerSecond →
    TokenBucketState.TBAdmissible cfg s calls →
    TokenBucketState.Inv cfg s →
    TokenBucketState.Inv cfg (TokenBucketState.runAcquires cfg s calls) := by
  intro calls
  induction calls with
  | nil => intro s _ _ hinv; simpa [TokenBucketState.runAcquires] using hinv
  | cons c rest ih =>
      intro s hr hadm hinv
      obtain ⟨req, now⟩ := c
      obtain ⟨hreq, hnow, hadm'⟩ := hadm
      have hstep := tokenBucket_acquire_preserves_inv cfg s req now hr (le_of_lt hreq) hnow hinv
      simpa [TokenBucketState.runAcquires] using
        ih (TokenBucketState.acquire cfg s req now).2 hr hadm' hstep

/-- Witness for C4: a concrete run from a freshly constructed bucket
(`tokens_per_second = 1`, `bucket_size = 5`, built at instant 0) through the
calls (2 tokens at t=1) and (5 tokens at t=2); the hypotheses hold and the
final count is inside `[0, 5]`. -/
theorem tokenBucket_invariant_witness :
    (0 : ℚ) ≤ (1 : ℚ) ∧
    TokenBucketState.TBAdmissible ⟨1, 5⟩ (TokenBucketState.init ⟨1, 5⟩ 0) [(2, 1), (5, 2)] ∧
    TokenBucketState.Inv ⟨1, 5⟩ (TokenBucketState.init ⟨1, 5⟩ 0) ∧
    TokenBucketState.Inv ⟨1, 5⟩
      (TokenBucketState.runAcquires ⟨1, 5⟩ (TokenBucketState.init ⟨1, 5⟩ 0) [(2, 1), (5, 2)]) := by
  refine ⟨by norm_num, ?_, ?_, ?_⟩
  · simp only [TokenBucketState.TBAdmissible, TokenBucketState.acquire, TokenBucketState.init]
    norm_num
  · exact ⟨by norm_num [TokenBucketState.init], by norm_num [TokenBucketState.init]⟩
  · exact tokenBucket_invariant ⟨1, 5⟩ [(2, 1), (5, 2)] (TokenBucketState.init ⟨1, 5⟩ 0)
      (by norm_num)
      (by simp only [TokenBucketState.TBAdmissible, TokenBucketState.acquire,
            TokenBucketState.init]; norm_num)
      ⟨by norm_num [TokenBucketState.init], by norm_num [TokenBucketState.init]⟩

/-- C3: `TokenBucketRateLimiter.acquire` coincides, on every state, request and
clock instant, with the token-bucket reference algorithm as worded by the spec:
refill `tokens = min(C, tokens + elapsed*r)`; if enough tokens, debit and
return with zero wait; otherwise wait `(requested - tokens) / r`, reset the
count to 0, stamp the last-refill time with the post-wait instant, and return
the waited duration. -/
theorem tokenBucket_acquire_refines_spec (cfg : TokenBucketConfig)
    (s : TokenBucketState) (req now : ℚ) :
    TokenBucketState.acquire cfg s req now = TokenBucketState.acquireSpec cfg s req now := by
  simp only [TokenBucketState.acquire, TokenBucketState.acquireSpec]
  rcases lt_or_le (min cfg.bucketSize (s.tokens + (now - s.lastUpdate) * cfg.tokensPerSecond))
      req with h | h
  · rw [if_pos h, if_neg (not_le.mpr h)]
  · rw [if_neg (not_lt.mpr h), if_pos h]

/-- C5: `_refresh_auth_if_needed` (the spec's `ensure_valid`), called at
instant `now` when the token endpoint grants fresh tokens living at least the
60-second grace period: it performs at most one refresh per call; it refreshes
exactly when the current token's expiry is less than 60 seconds away
(`Auth.is_expired`); and the token left in place for the request is never
expired, i.e. its expiry is at least the grace period in the future. -/
theorem ensureValid_grace_period (a : Auth) (now : ℚ) (tok ttype : String) (expiresIn : ℚ)
    (hfresh : Auth.gracePeriod ≤ expiresIn) :
    (Auth.refreshAuthIfNeeded a now tok ttype expiresIn).2 ≤ 1 ∧
    ((Auth.refreshAuthIfNeeded a now tok ttype expiresIn).2 = 1 ↔ a.isExpired now = true) ∧
    Auth.isExpired (Auth.refreshAuthIfNeeded a now tok ttype expiresIn).1 now = false := by
  rw [Auth.gracePeriod] at hfresh
  simp only [Auth.refreshAuthIfNeeded]
  cases h : a.isExpired now with
  | true =>
      rw [if_pos rfl]
      refine ⟨le_refl 1, by simp, ?_⟩
      simp only [Auth.isExpired, Auth.authenticate, Auth.gracePeriod, decide_eq_false_iff_not,
        not_lt]
      linarith
  | false =>
      rw [if_neg (by simp)]
      exact ⟨by norm_num, by simp, h⟩

/-- Witness for C5: a token that expires at t = 100 is expired at t = 50
(less than 60 s of life left); a refresh granting the default 3600-second
lifetime happens, exactly once, and the resulting token is not expired. -/
theorem ensureValid_grace_period_witness :
    Auth.gracePeriod ≤ (3600 : ℚ) ∧
    (Auth.refreshAuthIfNeeded ⟨"old", "Bearer", 100⟩ 50 "new" "Bearer" 3600).2 = 1 ∧
    Auth.isExpired (Auth.refreshAuthIfNeeded ⟨"old", "Bearer", 100⟩ 50 "new" "Bearer" 3600).1 50
      = false := by
  have h := ensureValid_grace_period ⟨"old", "Bearer", 100⟩ 50 "new" "Bearer" 3600
    (by rw [Auth.gracePeriod]; norm_num)
  exact ⟨by rw [Auth.gracePeriod]; norm_num,
    h.2.1.mpr (by simp [Auth.isExpired, Auth.gracePeriod]; norm_num), h.2.2⟩

/-- Deleting a key's file makes its lookup miss. -/
theorem cacheLookup_erase (store : CacheStore) (k : CacheKey) :
    cacheLookup (cacheErase store k) k = none := by
  simp only [cacheLookup, cacheErase]
  rw [List.find?_eq_none.mpr]
  · rfl
  · intro x hx
    rw [List.mem_filter] at hx
    simpa using hx.2

/-- A freshly written file is found. -/
theorem cacheLookup_set (store : CacheStore) (pfx : String) (args : List String)
    (kwargs : List (String × String)) (payload : String) (now : ℚ) :
    cacheLookup (cacheSet store pfx args kwargs payload now) (cacheKey pfx args kwargs)
      = some ⟨now, .good payload⟩ := by
  simp [cacheSet, cacheLookup, List.find?]

/-- C6: for the response cache, (i) `get` after `set` with the same logical
key (same prefix and same argument set) within the TTL returns the stored
payload; (ii) `get` once more than `cache_lifetime` after the entry was
written misses regardless of the payload and deletes the entry; (iii) a
corrupt entry (one whose unpickling raises) degrades to a miss and leaves the
store unchanged — `get` is a total function into `Option`, so no exception
reaches the caller. -/
theorem cache_get_set_ttl_corruption (lifetime : ℚ) (store : CacheStore) (pfx : String)
    (args : List String) (kwargs : List (String × String)) (payload : String)
    (tset tget : ℚ) :
    (tget - tset ≤ lifetime →
      (cacheGet lifetime (cacheSet store pfx args kwargs payload tset)
        pfx args kwargs tget).1 = some payload) ∧
    (lifetime < tget - tset →
      (cacheGet lifetime (cacheSet store pfx args kwargs payload tset)
        pfx args kwargs tget).1 = none ∧
      cacheLookup (cacheGet lifetime (cacheSet store pfx args kwargs payload tset)
        pfx args kwargs tget).2 (cacheKey pfx args kwargs) = none) ∧
    (∀ t, cacheLookup store (cacheKey pfx args kwargs) = some ⟨t, .corrupt⟩ →
      (cacheGet lifetime store pfx args kwargs tget).1 = none) := by
  refine ⟨?_, ?_, ?_⟩
  · intro h
    simp only [cacheGet, cacheLookup_set]
    rw [if_neg (by linarith)]
  · intro h
    simp only [cacheGet, cacheLookup_set]
    rw [if_pos (by linarith)]
    exact ⟨rfl, cacheLookup_erase _ _⟩
  · intro t hc
    simp only [cacheGet, hc]
    rcases lt_or_le lifetime (tget - t) with h | h
    · rw [if_pos h]
    · rw [if_neg (not_lt.mpr h)]

/-- Witness for C6: with a 4-hour lifetime, a `get` 1 hour after `set` hits
with the stored payload; a `get` 9 hours after `set` misses and the entry is
gone; a `get` on a corrupt entry misses without touching the store. -/
theorem cache_get_set_ttl_corruption_witness :
    ((1 : ℚ) - 0 ≤ 4 ∧
      (cacheGet 4 (cacheSet [] "campaigns" [] [("state", "enabled")] "payload" 0)
        "campaigns" [] [("state", "enabled")] 1).1 = some "payload") ∧
    ((4 : ℚ) < 9 - 0 ∧
      (cacheGet 4 (cacheSet [] "campaigns" [] [("state", "enabled")] "payload" 0)
        "campaigns" [] [("state", "enabled")] 9).1 = none) ∧
    (cacheLookup [(cacheKey "campaigns" [] [], ⟨0, .corrupt⟩)] (cacheKey "campaigns" [] [])
        = some ⟨0, .corrupt⟩ ∧
      (cacheGet 4 [(cacheKey "campaigns" [] [], ⟨0, .corrupt⟩)] "campaigns" [] [] 1).1
        = none) := by
  refine ⟨⟨by norm_num, ?_⟩, ⟨by norm_num, ?_⟩, ⟨rfl, ?_⟩⟩
  · exact (cache_get_set_ttl_corruption 4 [] "campaigns" [] [("state", "enabled")]
      "payload" 0 1).1 (by norm_num)
  · exact ((cache_get_set_ttl_corruption 4 [] "campaigns" [] [("state", "enabled")]
      "payload" 0 9).2.1 (by norm_num)).1
  · exact (cache_get_set_ttl_corruption 4 [(cacheKey "campaigns" [] [], ⟨0, .corrupt⟩)]
      "campaigns" [] [] "unused" 0 1).2.2 0 rfl

/-- A non-terminal poll just sleeps and continues the loop. -/
theorem waitGo_nonterminal (interval timeout fuel elapsed : ℕ) (p : PollStatus)
    (rest : List PollStatus) (hp : isTerminalPoll p = false) (ht : elapsed < timeout) :
    waitGo interval timeout (fuel + 1) (p :: rest) elapsed
      = waitGo interval timeout fuel rest (elapsed + interval) := by
  rw [waitGo.eq_def]
  cases p <;> simp_all [isTerminalPoll]

/-- The first terminal status observed inside the deadline decides the
outcome: SUCCESS yields its location, FAILURE and CANCELLED yield the failed
ending. -/
theorem waitGo_first_terminal (interval timeout : ℕ) :
    ∀ (pre : List PollStatus) (t : PollStatus) (rest : List PollStatus) (fuel elapsed : ℕ),
    (∀ p ∈ pre, isTerminalPoll p = false) →
    elapsed + pre.length * interval < timeout →
    pre.length < fuel →
    ((∀ loc, t = .success loc →
        waitGo interval timeout fuel (pre ++ t :: rest) elapsed = .gotLocation loc) ∧
     (t = .failure ∨ t = .cancelled →
        waitGo interval timeout fuel (pre ++ t :: rest) elapsed = .reportFailed t)) := by
  intro pre
  induction pre with
  | nil =>
      intro t rest fuel elapsed _ hdl hfuel
      obtain ⟨f, rfl⟩ : ∃ f, fuel = f + 1 := ⟨fuel - 1, by omega⟩
      have ht : elapsed < timeout := by simpa using hdl
      constructor
      · rintro loc rfl
        rw [waitGo.eq_def]
        simp [ht]
      · rintro (rfl | rfl) <;> (rw [waitGo.eq_def]; simp [ht])
  | cons p pre' ih =>
      intro t rest fuel elapsed hpre hdl hfuel
      obtain ⟨f, rfl⟩ : ∃ f, fuel = f + 1 := ⟨fuel - 1, by omega⟩
      have hp : isTerminalPoll p = false := hpre p (by simp)
      have ht : elapsed < timeout := by
        have : (0 : ℕ) ≤ (pre'.length + 1) * interval := Nat.zero_le _
        simp only [List.length_cons] at hdl
        omega
      have hstep := waitGo_nonterminal interval timeout f elapsed p (pre' ++ t :: rest) hp ht
      have hdl' : elapsed + interval + pre'.length * interval < timeout := by
        simp only [List.length_cons] at hdl
        have : (pre'.length + 1) * interval = pre'.length * interval + interval := by ring
        omega
      have := ih t rest f (elapsed + interval) (fun q hq => hpre q (by simp [hq]))
        hdl' (by simpa using hfuel)
      constructor
      · intro loc hloc
        rw [List.cons_append, hstep]
        exact this.1 loc hloc
      · intro hfc
        rw [List.cons_append, hstep]
        exact this.2 hfc

/-- If every poll made before the deadline observes a non-terminal status,
the loop ends in the synthetic timeout. -/
theorem waitGo_timeout (interval timeout : ℕ) :
    ∀ (fuel : ℕ) (script : List PollStatus) (elapsed : ℕ),
    (∀ k, elapsed + k * interval < timeout →
        isTerminalPoll (script.getD k .noStatus) = false) →
    waitGo interval timeout fuel script elapsed = .timedOut := by
  intro fuel
  induction fuel with
  | zero => intro script elapsed _; rw [waitGo.eq_def]
  | succ f ih =>
      intro script elapsed h
      rcases Nat.lt_or_ge elapsed timeout with ht | ht
      case inr =>
        rw [waitGo.eq_def]
        simp [Nat.not_lt.mpr ht]
      · have hsh : ∀ k, elapsed + interval + k * interval < timeout →
            isTerminalPoll (script.tail.getD k .noStatus) = false := by
          intro k hk
          have h' := h (k + 1) (by
            have : (k + 1) * interval = k * interval + interval := by ring
            omega)
          cases script with
          | nil => simpa using h'
          | cons q rest => simpa using h'
        cases script with
        | nil =>
            rw [waitGo.eq_def]
            simp only [ht, if_true]
            exact ih [] (elapsed + interval) (by simpa using hsh)
        | cons q rest =>
            have hq : isTerminalPoll q = false := by
              simpa using h 0 (by simpa using ht)
            rw [waitGo_nonterminal interval timeout f elapsed q rest hq ht]
            exact ih rest (elapsed + interval) (by simpa using hsh)

/-- C7: `wait_for_report` against a scripted status sequence with a sleep of
`interval` between polls and a `timeout` deadline: (i) when the polls before a
SUCCESS are all non-terminal and the SUCCESS poll happens inside the deadline,
it returns the download location (e.g. `[RUNNING, RUNNING, SUCCESS(url)]`
yields `url`); (ii) a FAILURE or CANCELLED poll inside the deadline ends the
loop in the distinct `reportFailed` ending, whose Python return value is
`None` — no exception; (iii) when every poll made before the deadline is
non-terminal the loop ends in the distinct `timedOut` ending, also returning
`None`.  The three endings are distinct constructors, logged distinctly. -/
theorem waitForReport_outcomes (interval timeout : ℕ) (hint : 1 ≤ interval) :
    (∀ pre loc rest, (∀ p ∈ pre, isTerminalPoll p = false) →
      pre.length * interval < timeout →
      waitForReport (pre ++ .success loc :: rest) interval timeout = .gotLocation loc) ∧
    (∀ pre t rest, (t = .failure ∨ t = .cancelled) →
      (∀ p ∈ pre, isTerminalPoll p = false) →
      pre.length * interval < timeout →
      waitForReport (pre ++ t :: rest) interval timeout = .reportFailed t ∧
      (waitForReport (pre ++ t :: rest) interval timeout).toReturn = none) ∧
    (∀ script, (∀ k, k * interval < timeout →
        isTerminalPoll (script.getD k .noStatus) = false) →
      waitForReport script interval timeout = .timedOut ∧
      (waitForReport script interval timeout).toReturn = none) := by
  refine ⟨?_, ?_, ?_⟩
  · intro pre loc rest hpre hdl
    have hfuel : pre.length < timeout + 1 := by
      have := Nat.le_mul_of_pos_right pre.length (show 0 < interval by omega)
      omega
    exact (waitGo_first_terminal interval timeout pre (.success loc) rest (timeout + 1) 0
      hpre (by simpa using hdl) hfuel).1 loc rfl
  · intro pre t rest hfc hpre hdl
    have hfuel : pre.length < timeout + 1 := by
      have := Nat.le_mul_of_pos_right pre.length (show 0 < interval by omega)
      omega
    have h' : waitForReport (pre ++ t :: rest) interval timeout = .reportFailed t :=
      (waitGo_first_terminal interval timeout pre t rest (timeout + 1) 0
        hpre (by simpa using hdl) hfuel).2 hfc
    exact ⟨h', by rw [h']; rfl⟩
  · intro script hscript
    have h' : waitForReport script interval timeout = .timedOut :=
      waitGo_timeout interval timeout (timeout + 1) script 0 (by simpa using hscript)
    exact ⟨h', by rw [h']; rfl⟩

/-- Witness for C7 on the spec's mock sequences with the source's 5-second
poll sleep and 300-second timeout: `[RUNNING, RUNNING, SUCCESS(url)]` yields
the url; `[RUNNING, FAILURE]` returns the failed ending (value `None`);
`[RUNNING]` (then silence) times out (value `None`). -/
theorem waitForReport_outcomes_witness :
    waitForReport ([.running, .running] ++ .success "https://s3/report" :: []) 5 300
        = .gotLocation "https://s3/report" ∧
    waitForReport ([.running] ++ .failure :: []) 5 300 = .reportFailed .failure ∧
    (waitForReport ([.running] ++ .failure :: []) 5 300).toReturn = none ∧
    waitForReport [.running] 5 300 = .timedOut ∧
    (waitForReport [.running] 5 300).toReturn = none := by
  have h := waitForReport_outcomes 5 300 (by norm_num)
  have h1 := h.1 [.running, .running] "https://s3/report" [] (by decide) (by norm_num)
  have h2 := h.2.1 [.running] .failure [] (Or.inl rfl) (by decide) (by norm_num)
  have h3 := h.2.2 [.running] (by
    intro k hk
    match k with
    | 0 => rfl
    | 1 => rfl
    | (n + 2) => rfl)
  exact ⟨h1, h2.1, h2.2, h3.1, h3.2⟩

/-- C8: `download_report` given the same row text delivered as a ZIP archive,
as a gzip stream, and as plain CSV text produces the identical parsed record
sequence; decompression is attempted in the order ZIP archive, then gzip,
then plain text (the definition of `download_report` chains the stages in
that order, and an archive's first member (`namelist()[0]`) is the one
parsed, while an empty archive degrades to `[]` through the outer handler). -/
theorem downloadReport_format_independence (t : String) (rest : List String) :
    download_report (.zipArchive (t :: rest)) = parseCSV t ∧
    download_report (.gzipStream t) = parseCSV t ∧
    download_report (.plainText t) = parseCSV t ∧
    download_report (.zipArchive [t]) = download_report (.gzipStream t) ∧
    download_report (.gzipStream t) = download_report (.plainText t) ∧
    download_report (.zipArchive []) = [] :=
  ⟨rfl, rfl, rfl, rfl, rfl, rfl⟩

/-- A concrete round trip for C8: the two-row CSV sample parses to the same
two records from all three containers. -/
theorem downloadReport_concrete_sample :
    download_report (.zipArchive ["keywordId,clicks\nk1,10\nk2,3"])
        = [[("keywordId", "k1"), ("clicks", "10")], [("keywordId", "k2"), ("clicks", "3")]] ∧
    download_report (.gzipStream "keywordId,clicks\nk1,10\nk2,3")
        = [[("keywordId", "k1"), ("clicks", "10")], [("keywordId", "k2"), ("clicks", "3")]] ∧
    download_report (.plainText "keywordId,clicks\nk1,10\nk2,3")
        = [[("keywordId", "k1"), ("clicks", "10")], [("keywordId", "k2"), ("clicks", "3")]] := by
  refine ⟨?_, ?_, ?_⟩ <;> decide

/-- C9 counterexample to the claim as stated: in the complete optimizer, a
read accessor does not absorb an authentication failure.  With an expired
token and a failing token exchange, `get_campaigns` propagates
`SystemExit(1)` (raised by `sys.exit(1)` inside `_authenticate`; it derives
from `BaseException`, so `except Exception` does not catch it) instead of
returning the empty list. -/
theorem getCampaigns_systemExit_counterexample :
    getCampaigns ⟨true, false, .ok "body", .ok ["c1"]⟩ = .error (.sysExit 1) ∧
    getCampaigns ⟨true, false, .ok "body", .ok ["c1"]⟩ ≠ .ok [] :=
  ⟨rfl, fun h => Except.noConfusion h⟩

/-- C9 (amended): every read accessor absorbs every `Exception`-class error
from the request or parsing path and returns the empty list; in the fixed
client this covers the authentication path too, so `list_campaigns` never
propagates anything.  In the complete optimizer, however, a failed token
exchange during a read raises `SystemExit`, which escapes `get_campaigns`;
`get_campaigns` absorbs all other failures. -/
theorem read_accessors_absorb_exceptions (env : ReadEnv) :
    ((env.tokenExpired = true → env.authExchangeOk = true) →
      (∀ m, env.transport = .error m → getCampaigns env = .ok []) ∧
      (∀ body m, env.transport = .ok body → env.parseResult = .error m →
        getCampaigns env = .ok []) ∧
      (∃ l, getCampaigns env = .ok l)) ∧
    (env.tokenExpired = true → env.authExchangeOk = false →
      getCampaigns env = .error (.sysExit 1)) ∧
    (∃ l, listCampaigns env = .ok l) := by
  obtain ⟨te, ak, tr, pr⟩ := env
  refine ⟨?_, ?_, ?_⟩
  · intro hauth
    have hok : (if te = true then authenticateOutcome ⟨te, ak, tr, pr⟩ else .ok ())
        = Except.ok () := by
      cases te with
      | false => rfl
      | true =>
          have hak : ak = true := hauth rfl
          simp [authenticateOutcome, hak]
    refine ⟨?_, ?_, ?_⟩
    · rintro m rfl
      simp only [getCampaigns, requestOutcome, refreshOutcome] at *
      rw [hok]
    · rintro body m rfl rfl
      simp only [getCampaigns, requestOutcome, refreshOutcome] at *
      rw [hok]
    · simp only [getCampaigns, requestOutcome, refreshOutcome] at *
      rw [hok]
      cases tr with
      | error m => exact ⟨[], rfl⟩
      | ok body =>
          cases pr with
          | error m => exact ⟨[], rfl⟩
          | ok cs => exact ⟨cs, rfl⟩
  · rintro rfl rfl
    rfl
  · simp only [listCampaigns, fixedRequestOutcome, fixedAuthenticateOutcome]
    cases te with
    | true =>
        cases ak with
        | false => exact ⟨[], rfl⟩
        | true =>
            cases tr with
            | error m => exact ⟨[], rfl⟩
            | ok body =>
                cases pr with
                | error m => exact ⟨[], rfl⟩
                | ok cs => exact ⟨cs, rfl⟩
    | false =>
        cases tr with
        | error m => exact ⟨[], rfl⟩
        | ok body =>
            cases pr with
            | error m => exact ⟨[], rfl⟩
            | ok cs => exact ⟨cs, rfl⟩

/-- Witness for C9 (amended) at concrete environments: a transport failure
with a valid token yields `[]` from `get_campaigns`; a parse failure yields
`[]`; and `list_campaigns` of the fixed client yields a plain list even when
token refresh, transport, and parse all fail. -/
theorem read_accessors_absorb_exceptions_witness :
    getCampaigns ⟨false, true, .error "HTTP 500", .ok ["c1"]⟩ = .ok [] ∧
    getCampaigns ⟨true, true, .ok "body", .error "bad json"⟩ = .ok [] ∧
    (∃ l, listCampaigns ⟨true, false, .error "HTTP 500", .error "bad json"⟩ = .ok l) := by
  refine ⟨?_, ?_, ?_⟩
  · exact ((read_accessors_absorb_exceptions ⟨false, true, .error "HTTP 500", .ok ["c1"]⟩).1
      (fun h => by cases h)).1 "HTTP 500" rfl
  · exact (((read_accessors_absorb_exceptions ⟨true, true, .ok "body", .error "bad json"⟩).1
      (fun _ => rfl)).2.1) "body" "bad json" rfl rfl
  · exact (read_accessors_absorb_exceptions
      ⟨true, false, .error "HTTP 500", .error "bad json"⟩).2.2

/-- In a dry run the bid-optimization loop issues no write call. -/
theorem optimize_dryRun_writes (cfg : BidCfg) (keywords : List Keyword) :
    ∀ rows, (optimize cfg keywords true rows).2.2 = [] := by
  intro rows
  induction rows with
  | nil => rfl
  | cons row rest ih =>
      rw [optimize.eq_def]
      cases h : bidRowOutcome cfg keywords row <;> simp [h, ih]

/-- In a dry run the dayparting loop issues no write call. -/
theorem daypartGo_dryRun_writes (cfg : DaypartCfg) (mult : ℚ) :
    ∀ (keywords : List Keyword) (baseBids : List (String × ℚ)),
    (daypartGo cfg mult true keywords baseBids).2.2 = [] := by
  intro keywords
  induction keywords with
  | nil => intro b; rfl
  | cons kw rest ih =>
      intro b
      rw [daypartGo.eq_def]
      dsimp only
      split <;> (split <;> simp [ih])

/-- In a dry run `apply_dayparting` issues no write call (whether or not
dayparting is enabled). -/
theorem applyDayparting_dryRun_writes (cfg : DaypartCfg) (hour : ℕ) (day : String)
    (keywords : List Keyword) :
    (applyDayparting cfg hour day keywords true).2.2.2 = [] := by
  unfold applyDayparting
  split
  · exact daypartGo_dryRun_writes cfg (getMultiplier cfg hour day) keywords []
  · rfl

/-- In a dry run the campaign-management loop issues no write call. -/
theorem manageCampaigns_dryRun_writes (cfg : CampCfg) (campaigns : List Campaign) :
    ∀ rows, (manageCampaigns cfg campaigns true rows).2.2 = [] := by
  intro rows
  induction rows with
  | nil => rfl
  | cons row rest ih =>
      rw [manageCampaigns.eq_def]
      cases h : campRowOutcome cfg campaigns row <;> simp [h, ih]

/-- In a dry run `discover_keywords` issues no write call. -/
theorem discoverKeywords_dryRun_writes (cfg : DiscCfg) (existing : List Keyword)
    (rows : List QueryRow) :
    (discoverKeywords cfg existing true rows).2.2 = [] := by
  unfold discoverKeywords
  rw [if_neg (by simp), if_pos rfl]

/-- In a dry run `add_negative_keywords` issues no write call. -/
theorem addNegativeKeywords_dryRun_writes (cfg : NegCfg) (existing : List (String × String))
    (rows : List NegRow) :
    (addNegativeKeywords cfg existing true rows).2.2 = [] := by
  unfold addNegativeKeywords
  rw [if_neg (by simp), if_pos rfl]

/-- C10: every feature module invoked with `dry_run=True` issues no write API
call (`update_keyword_bid`, `update_campaign`, `create_keywords`,
`create_negative_keywords`) — its write list is empty for all inputs, so the
remote entity state is untouched; only audit entries and result counters are
produced. -/
theorem dry_run_no_writes (bcfg : BidCfg) (keywords : List Keyword) (rows : List BidRow)
    (dcfg : DaypartCfg) (hour : ℕ) (day : String) (dpKeywords : List Keyword)
    (ccfg : CampCfg) (campaigns : List Campaign) (crows : List CampRow)
    (kcfg : DiscCfg) (existing : List Keyword) (qrows : List QueryRow)
    (ncfg : NegCfg) (negExisting : List (String × String)) (nrows : List NegRow) :
    (optimize bcfg keywords true rows).2.2 = [] ∧
    (applyDayparting dcfg hour day dpKeywords true).2.2.2 = [] ∧
    (manageCampaigns ccfg campaigns true crows).2.2 = [] ∧
    (discoverKeywords kcfg existing true qrows).2.2 = [] ∧
    (addNegativeKeywords ncfg negExisting true nrows).2.2 = [] :=
  ⟨optimize_dryRun_writes bcfg keywords rows,
   applyDayparting_dryRun_writes dcfg hour day dpKeywords,
   manageCampaigns_dryRun_writes ccfg campaigns crows,
   discoverKeywords_dryRun_writes kcfg existing qrows,
   addNegativeKeywords_dryRun_writes ncfg negExisting nrows⟩

end PPC
